import Mathlib

/-!
Verification of the Hash Array Mapped Trie (HAMT) in
src/foc/hash_array_mapped_trie.h (the mature variant, namespace foc).

The C++ code is shallowly embedded:
* machine integers (uint32_t / size_t) become Nat with explicit `% 2 ^ 32`
  (resp. `% 2 ^ 64`) where wrap-around matters,
* `__builtin_popcount` on a uint32 becomes `popcount32`,
* raw pointers become abstract addresses (`Addr`): every heap array
  allocated for a BitmapTrie receives a fresh id (a counter threaded
  through the operations), and the address of a Node is the pair
  (array id, physical index) of the slot that holds it; the root Node,
  which lives inside the map object, has the dedicated address `Addr.root`.
  The low tag bit of the C++ `_parent` field is represented by the
  constructor of the node (`entry` vs `trie`), and the masked pointer by
  the `parentAddr` field,
* placement-`new`-over-uninitialized-buffer is modelled by an
  `Option (Nat × Nat)` content in entry nodes (`none` = uninitialized),
* the allocator is an oracle `allocOk : Nat → Bool` consulted with the
  current allocation counter; `false` models `allocate` returning null,
* undefined behaviour (failed asserts, dereferencing stale or null
  pointers, reading uninitialized memory) is modelled by an `Option`
  result being `none` (or a dedicated `ub` constructor),
* loops (the BFS of insertHashCollidedEntry, the DFS of findNode, the
  iterator walk) take an explicit fuel argument; call sites pass a fuel
  that provably dominates the number of iterations.

Keys and mapped values are instantiated at Nat (the C++ class is a
template; the tests use int64_t).  The user hash function is a parameter
`hasher : Nat → Nat` and key equality is equality on Nat
(std::equal_to).
-/

namespace Foc

/-! ### Bit utilities -/

/-- popcount of the low 32 bits, i.e. `__builtin_popcount` on a uint32_t. -/
def popcount32 (n : Nat) : Nat :=
  (List.range 32).countP (fun i => n.testBit i)

/-- Number of significant bits of `x` (so `64 - __builtin_clzll x` for a
nonzero 64-bit `x`), computed with structural fuel so that it reduces. -/
def bitlen : Nat → Nat → Nat
  | 0, _ => 0
  | fuel + 1, x => if x = 0 then 0 else bitlen fuel (x / 2) + 1

/-! ### The allocation-size heuristic (hamt_trie_allocation_size) -/

/-- Table `alloc_sizes_by_level` from the source: rows are levels 0..4,
columns are generations 0..22. -/
def alloc_sizes_by_level : List (List Nat) :=
  [[2, 3, 5, 8, 13, 21, 29, 32, 32, 32, 32, 32, 32, 32, 32, 32, 32, 32, 32, 32, 32, 32, 32],
   [1, 1, 1, 1, 1, 2, 3, 5, 8, 13, 21, 29, 32, 32, 32, 32, 32, 32, 32, 32, 32, 32, 32],
   [1, 1, 1, 1, 1, 1, 1, 1, 1, 1, 2, 3, 5, 8, 13, 21, 29, 32, 32, 32, 32, 32, 32],
   [1, 1, 1, 1, 1, 1, 1, 1, 1, 1, 1, 1, 1, 1, 1, 2, 3, 5, 8, 13, 21, 29, 32],
   [1, 1, 1, 1, 1, 1, 1, 1, 1, 1, 1, 1, 1, 1, 1, 1, 1, 1, 1, 1, 1, 1, 1]]

/-- Table `alloc_sizes` from the source, indexed by `required` in 0..32. -/
def alloc_sizes : List Nat :=
  [1, 1, 2, 3, 5, 5, 8, 8, 8, 13, 13, 13, 13, 13, 21, 21, 21, 21, 21, 21, 21,
   21, 29, 29, 29, 29, 29, 29, 29, 29, 32, 32, 32]

/-- Embedding of `foc::detail::hamt_trie_allocation_size`.
`generation` is `ceil(log2(expected_hamt_size))` computed as
`64 - __builtin_clzll(expected_hamt_size - 1)` capped at 22; the level is
capped at 4 (and then the generation is forced to 0). -/
def hamt_trie_allocation_size (required expected_hamt_size level : Nat) : Nat :=
  let lg : Nat × Nat :=
    if 4 < level then (4, 0)
    else if expected_hamt_size - 1 = 0 then (level, 0)
    else (level, min (bitlen 64 (expected_hamt_size - 1)) 22)
  let guess := (alloc_sizes_by_level.getD lg.1 []).getD lg.2 0
  if guess < required then alloc_sizes.getD required 0 else guess

lemma bitlen_min_le (x : Nat) : min (bitlen 64 x) 22 ≤ 22 := min_le_right _ _

/-- Finite check behind C4: for every row index, capped generation and
required in range, the heuristic output is in `[required, 32]`. -/
lemma alloc_size_table_check :
    ∀ lv < 5, ∀ gen < 23, ∀ req < 33, 1 ≤ req →
      let guess := (alloc_sizes_by_level.getD lv []).getD gen 0
      let r := if guess < req then alloc_sizes.getD req 0 else guess
      req ≤ r ∧ r ≤ 32 := by decide



/-- C4: for every `required` in `[1,32]`, `expected_hamt_size >= 1` and every
level, `hamt_trie_allocation_size required expected_hamt_size level` is at
least `required` and at most 32. -/
theorem hamt_trie_allocation_size_in_range
    (required expected_hamt_size level : Nat)
    (h1 : 1 ≤ required) (h2 : required ≤ 32) (_h3 : 1 ≤ expected_hamt_size) :
    required ≤ hamt_trie_allocation_size required expected_hamt_size level ∧
      hamt_trie_allocation_size required expected_hamt_size level ≤ 32 := by
  unfold hamt_trie_allocation_size
  have hreq : required < 33 := by omega
  by_cases hl : 4 < level
  · simpa [hl] using alloc_size_table_check 4 (by omega) 0 (by omega) required hreq h1
  · by_cases he : expected_hamt_size - 1 = 0
    · simpa [hl, he] using
        alloc_size_table_check level (by omega) 0 (by omega) required hreq h1
    · have hg : min (bitlen 64 (expected_hamt_size - 1)) 22 < 23 := by
        have := min_le_right (bitlen 64 (expected_hamt_size - 1)) 22
        omega
      simpa [hl, he] using
        alloc_size_table_check level (by omega) _ hg required hreq h1

/-- Witness for C4 at `required = 3`, `expected_hamt_size = 10`, `level = 1`. -/
theorem hamt_trie_allocation_size_in_range_witness :
    1 ≤ 3 ∧ 3 ≤ 32 ∧ 1 ≤ 10 ∧
      (3 ≤ hamt_trie_allocation_size 3 10 1 ∧ hamt_trie_allocation_size 3 10 1 ≤ 32) :=
  ⟨by decide, by decide, by decide,
   hamt_trie_allocation_size_in_range 3 10 1 (by decide) (by decide) (by decide)⟩

/-! ### Addresses, nodes

A `Node` is the tagged union `NodeTemplate`: either an Entry (a key/value
pair, possibly uninitialized) or a BitmapTrie (bitmap, capacity, backing
array).  `parentAddr` is the `_parent` pointer with the tag bit masked
off; the tag bit itself is the constructor.  `arrayId` identifies the
heap array `_base` (fresh ids come from an allocation counter), so the
address of the node stored at physical index `i` of that array is
`Addr.slot arrayId i`.  A trie with a null `_base` carries `arrayId = 0`
(never a real id: the counter starts at 1). -/

inductive Addr : Type where
  | null : Addr
  | root : Addr
  | slot (arrayId idx : Nat) : Addr
deriving DecidableEq, Repr

inductive Node : Type where
  | entry (parentAddr : Addr) (content : Option (Nat × Nat)) : Node
  | trie (parentAddr : Addr) (bitmap capacity arrayId : Nat) (base : List Node) : Node

def Node.isEntry : Node → Bool
  | .entry _ _ => true
  | .trie _ _ _ _ _ => false

def Node.isTrie (n : Node) : Bool := !n.isEntry

/-- `node.parent()`: the `_parent` pointer with the tag bit masked off. -/
def Node.parent : Node → Addr
  | .entry pa _ => pa
  | .trie pa _ _ _ _ => pa

-- Total number of nodes in a subtree (used as fuel for the BFS/DFS
-- loops: each loop iteration pops one trie node, so the number of
-- iterations is bounded by the number of nodes).
mutual
def Node.weight : Node → Nat
  | .entry _ _ => 1
  | .trie _ _ _ _ base => 1 + Node.weightList base

def Node.weightList : List Node → Nat
  | [] => 0
  | n :: ns => Node.weight n + Node.weightList ns
end

/-! ### BitmapTrie primitives -/

/-- `BitmapTrie::physicalIndex(logical_index)`:
`popcount(_bitmap & ((1 << logical_index) - 1))`. -/
def physicalIndex (bitmap logical_index : Nat) : Nat :=
  popcount32 (bitmap &&& (2 ^ logical_index - 1))

/-- `BitmapTrie::logicalPositionTaken(logical_index)`: bit test. -/
def logicalPositionTaken (bitmap logical_index : Nat) : Bool :=
  bitmap.testBit logical_index

/-- Size of the trie held by a trie node: `popcount(_bitmap)`. -/
def Node.triSize : Node → Nat
  | .trie _ bm _ _ _ => popcount32 bm
  | .entry _ _ => 0

/-- Result of `BitmapTrie::insertEntry`: the rebuilt trie node plus the
physical index of the opened slot and the new allocation counter, or
out-of-memory (`allocate` returned null, `insertEntry` returns null), or
undefined behaviour (a debug-assert violation). -/
inductive BTRes : Type where
  | ok (node : Node) (i : Nat) (nextId : Nat) : BTRes
  | oom (nextId : Nat) : BTRes
  | ub : BTRes

/-- Embedding of `BitmapTrieTemplate::insertEntry`.  Opens the slot for
`logical_index`: if the current capacity suffices, the physical slots at
and above `physicalIndex logical_index` are shifted up one position;
otherwise a new array of `hamt_trie_allocation_size` slots is allocated
(returning null on failure) and the old slots are moved around the
insertion point.  The opened slot is tagged as an entry with parent
pointer `parent` (`setEntryParent`) and uninitialized content; the bit
for `logical_index` is set in the bitmap.  The asserts
`logical_index < 32` and that the logical position is free are modelled
as UB when violated (the assert `required <= 32` follows from those). -/
def BitmapTrie.insertEntry (allocOk : Nat → Bool) (node : Node) (logical_index : Nat)
    (parent : Addr) (expected_hamt_size level nextId : Nat) : BTRes :=
  match node with
  | .entry _ _ => .ub
  | .trie pa bitmap capacity arrayId base =>
    if 32 ≤ logical_index ∨ bitmap.testBit logical_index then .ub
    else
      let i := physicalIndex bitmap logical_index
      let sz := popcount32 bitmap
      let required := sz + 1
      if required ≤ capacity then
        .ok (.trie pa (bitmap ||| 2 ^ logical_index) capacity arrayId
              (base.insertIdx i (.entry parent none))) i nextId
      else
        let alloc_size := hamt_trie_allocation_size required expected_hamt_size level
        if allocOk nextId then
          .ok (.trie pa (bitmap ||| 2 ^ logical_index) alloc_size nextId
                (base.insertIdx i (.entry parent none))) i (nextId + 1)
        else .oom (nextId + 1)

/-- Embedding of `Node::BitmapTrie(allocator, parent, capacity)`: re-tag
the node as a trie with the given (untagged) parent pointer and run
`BitmapTrie::allocate`.  If `allocate` fails, the C++ object is left
with a null `_base` but nonzero `_capacity`; the next `insertEntry` on
it takes the `required <= _capacity` branch and writes through the null
`_base`, so the model collapses that crash into `none` here. -/
def Node.mkTrie (allocOk : Nat → Bool) (parent : Addr) (capacity nextId : Nat) :
    Option (Node × Nat) :=
  if capacity = 0 then some (.trie parent 0 0 0 [], nextId)
  else if allocOk nextId then some (.trie parent 0 capacity nextId [], nextId + 1)
  else none

/-! ### Paths

Operations return `Node*` pointers into the tree; the model uses paths
of physical indices from (a subtree) root instead, plus the address map
`addrAtIn` when the actual pointer value matters. -/

def Node.getPath : Node → List Nat → Option Node
  | n, [] => some n
  | .trie _ _ _ _ base, i :: p => match base[i]? with
      | some c => c.getPath p
      | none => none
  | .entry _ _, _ :: _ => none

def Node.setPath : Node → List Nat → Node → Option Node
  | _, [], m => some m
  | .trie pa bm cap aid base, i :: p, m =>
      match base[i]? with
      | some c =>
        match c.setPath p m with
        | some c2 => some (.trie pa bm cap aid (base.set i c2))
        | none => none
      | none => none
  | .entry _ _, _ :: _, _ => none

/-- Placement-construction of an Entry into the entry node at `p`
(models `new (&node->asEntry()) Entry(...)`); UB if the node at `p` is
not an entry node. -/
def Node.writeEntry (n : Node) (p : List Nat) (kv : Nat × Nat) : Option Node :=
  match n.getPath p with
  | some (.entry pa _) => n.setPath p (.entry pa (some kv))
  | _ => none

/-- Assignment `node->asEntry().second = v` (requires initialized
content, since the old pair is read as a live object). -/
def Node.writeValue (n : Node) (p : List Nat) (v : Nat) : Option Node :=
  match n.getPath p with
  | some (.entry pa (some kv)) => n.setPath p (.entry pa (some (kv.1, v)))
  | _ => none

/-- Address of the node reached from a subtree root (whose own address
is `a`) by the path `p`. -/
def Node.addrAtIn : Node → Addr → List Nat → Option Addr
  | _, a, [] => some a
  | .trie _ _ _ aid base, _, i :: p =>
      match base[i]? with
      | some c => c.addrAtIn (.slot aid i) p
      | none => none
  | .entry _ _, _, _ :: _ => none


/-! ### Hashing -/

/-- `static_cast<uint32_t>(FOC_GET_HASH_SEED)`: the fixed default seed. -/
def hashSeed : Nat := 0xff51afd7ed558ccd % 2 ^ 32

/-- Embedding of `HashArrayMappedTrie::hash32`:
`_seed ^ (_hasher(key) + 0x9e3779b9 + (_seed << 6) + (_seed >> 2))`
truncated to 32 bits.  `_hasher` returns `size_t`, so the sum wraps at
2^64; `_seed` is a uint32_t, so `_seed << 6` wraps at 2^32. -/
def hash32 (hasher : Nat → Nat) (key : Nat) : Nat :=
  (hashSeed ^^^
    ((hasher key + 0x9e3779b9 + (hashSeed <<< 6) % 2 ^ 32 + hashSeed >>> 2) % 2 ^ 64)) %
    2 ^ 32

/-! ### Scanning the children of a trie node

Both the BFS of `insertHashCollidedEntry` and the DFS of `findNode` scan
the physical slots `0 .. size()-1` of a trie in ascending order,
immediately returning a child entry whose key compares equal, and
collecting child tries for the queue/stack.  The BFS additionally
records the first entry child seen.  The scan is sequential: slots after
an equal key are never examined. -/

inductive ScanRes : Type where
  | found (i : Nat) : ScanRes
  | done (tries : List Nat) (firstE : Option Nat) : ScanRes
  | ub : ScanRes

def scanChildren (key : Nat) (base : List Node) : List Nat → ScanRes
  | [] => .done [] none
  | i :: is =>
    match base[i]? with
    | none => .ub
    | some (.trie _ _ _ _ _) =>
        match scanChildren key base is with
        | .found j => .found j
        | .done ts fe => .done (i :: ts) fe
        | .ub => .ub
    | some (.entry _ none) => .ub
    | some (.entry _ (some kv)) =>
        if kv.1 = key then .found i
        else match scanChildren key base is with
          | .found j => .found j
          | .done ts _ => .done ts (some i)
          | .ub => .ub

/-! ### insertHashCollidedEntry -/

/-- Result of the BFS of `insertHashCollidedEntry`: either an existing
entry with an equal key was found, or the BFS ran to completion
reporting the first non-full trie node seen (if any), the last trie
node popped from the queue, and the first entry node seen (as a path
plus the address of the trie node holding it). -/
inductive BfsRes : Type where
  | found (p : List Nat) : BfsRes
  | done (nonFull : Option (List Nat × Addr)) (lastPopped : List Nat × Addr)
         (firstEntry : Option (List Nat × Addr)) : BfsRes
  | ub : BfsRes

/-- The BFS loop of `insertHashCollidedEntry`.  The queue is FIFO; each
popped element must be a trie node.  Paths are relative to the subtree
the search started from; addresses are absolute. -/
def insertHashCollidedBfs (key : Nat) :
    Nat → List (List Nat × Addr × Node) → Option (List Nat × Addr) →
    Option (List Nat × Addr) → (List Nat × Addr) → BfsRes
  | 0, _, _, _, _ => .ub
  | _ + 1, [], nonFull, firstE, last => .done nonFull last firstE
  | fuel + 1, (p, a, n) :: rest, nonFull, firstE, _last =>
    match n with
    | .entry _ _ => .ub
    | .trie _ bm _ aid base =>
      let sz := popcount32 bm
      let nonFull2 := if nonFull.isNone ∧ sz < 32 then some (p, a) else nonFull
      match scanChildren key base (List.range sz) with
      | .ub => .ub
      | .found i => .found (p ++ [i])
      | .done ts fe =>
        let newQ := ts.map (fun i => (p ++ [i], Addr.slot aid i,
          base.getD i (.entry .null none)))
        let firstE2 := match firstE, fe with
          | some x, _ => some x
          | none, some i => some (p ++ [i], a)
          | none, none => none
        insertHashCollidedBfs key fuel (rest ++ newQ) nonFull2 firstE2 (p, a)

/-- Result of the recursive insertion: the updated subtree, the path of
the returned `Node*` slot relative to that subtree, the final value of
the `*exists` flag and the updated `_count` and allocation counter; or
out-of-memory (`insertEntry` returned null with the partially updated
subtree); or UB. -/
inductive InsRes : Type where
  | ok (node : Node) (relPath : List Nat) (found : Bool) (count nextId : Nat) : InsRes
  | oom (node : Node) (count nextId : Nat) : InsRes
  | ub : InsRes

/-- Embedding of `HashArrayMappedTrie::insertHashCollidedEntry`.
`node` is the trie node reached with the hash exhausted, `nodeAddr` its
address.  A BFS over the subtree looks for the key; if absent, the new
entry is appended to `trie_node->asTrie()` where `trie_node` is the
variable left by the BFS loop, i.e. the LAST trie popped (the source
records `non_full_trie_node` but then uses `trie_node`); if no non-full
trie was seen, the first entry node found is moved into a fresh
2-capacity sub-trie together with the new entry. -/
def insertHashCollidedEntry (allocOk : Nat → Bool) (node : Node) (nodeAddr : Addr)
    (key : Nat) (count nextId : Nat) : InsRes :=
  match insertHashCollidedBfs key (Node.weight node + 1) [([], nodeAddr, node)]
      none none ([], nodeAddr) with
  | .ub => .ub
  | .found p => .ok node p true count nextId
  | .done nonFull lpla firstE =>
    match nonFull with
    | some _ =>
      match node.getPath lpla.1 with
      | some tn =>
        let count2 := count + 1
        match BitmapTrie.insertEntry allocOk tn tn.triSize lpla.2 count2 7 nextId with
        | .ok tn2 i nid2 =>
          match node.setPath lpla.1 tn2 with
          | some node2 => .ok node2 (lpla.1 ++ [i]) false count2 nid2
          | none => .ub
        | .oom nid2 => .oom node count2 nid2
        | .ub => .ub
      | none => .ub
    | none =>
      match firstE with
      | none => .ub
      | some (ep, pa) =>
        match node.getPath ep with
        | some (.entry _ (some replaced)) =>
          match Node.mkTrie allocOk pa 2 nextId with
          | none => .ub
          | some (tnode, nid1) =>
            match node.addrAtIn nodeAddr ep with
            | none => .ub
            | some eAddr =>
              match BitmapTrie.insertEntry allocOk tnode 0 eAddr count 7 nid1 with
              | .ok tnode2 i0 nid2 =>
                match tnode2.writeEntry [i0] replaced with
                | none => .ub
                | some tnode3 =>
                  let count2 := count + 1
                  match BitmapTrie.insertEntry allocOk tnode3 1 eAddr count2 7 nid2 with
                  | .ok tnode4 i1 nid3 =>
                    match node.setPath ep tnode4 with
                    | some node2 => .ok node2 (ep ++ [i1]) false count2 nid3
                    | none => .ub
                  | .oom nid3 =>
                    match node.setPath ep tnode3 with
                    | some node2 => .oom node2 count2 nid3
                    | none => .ub
                  | .ub => .ub
              | .oom _ => .ub
              | .ub => .ub
        | _ => .ub

/-- Embedding of the recursive
`HashArrayMappedTrie::insertEntry(trie_node, key, hash, shift, level, exists)`.
The fuel only bounds the recursion nesting; every 8 the shift reaches 32,
so fuel 9 suffices from a top-level call.  On hash exhaustion
(`shift >= 32`) the collided path takes over.  Otherwise the 5-bit slice
`t` of the hash selects a logical slot: an empty slot receives the new
entry (after `_count++`); a trie child is descended into; an entry child
either matches the key (`*exists = true`) or is branched off: the child
is re-initialized in place as a 2-capacity trie (with the child parent
pointer it stored), `_count--`, the replaced entry is re-inserted below
it (and placement-constructed into the returned slot), and the insertion
of the new key restarts from the new sub-trie. -/
def insGo (hasher : Nat → Nat) (allocOk : Nat → Bool) :
    Nat → Node → Addr → Nat → Nat → Nat → Nat → Nat → Nat → InsRes
  | 0, _, _, _, _, _, _, _, _ => .ub
  | fuel + 1, node, nodeAddr, key, hash, shift, level, count, nextId =>
    if 32 ≤ shift then
      insertHashCollidedEntry allocOk node nodeAddr key count nextId
    else
      match node with
      | .entry _ _ => .ub
      | .trie pa bm cap aid base =>
        let t := (hash >>> shift) &&& 0x1f
        if logicalPositionTaken bm t then
          let i := physicalIndex bm t
          match base[i]? with
          | none => .ub
          | some child =>
            match child with
            | .entry cpa content =>
              match content with
              | none => .ub
              | some kv0 =>
                if kv0.1 = key then .ok node [i] true count nextId
                else
                  match Node.mkTrie allocOk cpa 2 nextId with
                  | none => .ub
                  | some (tnode, nid1) =>
                    let count1 := count - 1
                    let childAddr := Addr.slot aid i
                    match insGo hasher allocOk fuel tnode childAddr kv0.1
                        (hash32 hasher kv0.1) (shift + 5) (level + 1) count1 nid1 with
                    | .ok sub1 rp1 _ex1 c1 n1 =>
                      match sub1.writeEntry rp1 kv0 with
                      | none => .ub
                      | some sub1w =>
                        match insGo hasher allocOk fuel sub1w childAddr key hash
                            (shift + 5) (level + 1) c1 n1 with
                        | .ok sub2 rp2 ex2 c2 n2 =>
                            .ok (.trie pa bm cap aid (base.set i sub2)) (i :: rp2) ex2 c2 n2
                        | .oom sub2 c2 n2 =>
                            .oom (.trie pa bm cap aid (base.set i sub2)) c2 n2
                        | .ub => .ub
                    | .oom _ _ _ => .ub
                    | .ub => .ub
            | .trie _ _ _ _ _ =>
              match insGo hasher allocOk fuel child (Addr.slot aid i) key hash
                  (shift + 5) (level + 1) count nextId with
              | .ok sub rp ex c n =>
                  .ok (.trie pa bm cap aid (base.set i sub)) (i :: rp) ex c n
              | .oom sub c n => .oom (.trie pa bm cap aid (base.set i sub)) c n
              | .ub => .ub
        else
          let count2 := count + 1
          match BitmapTrie.insertEntry allocOk node t nodeAddr count2 level nextId with
          | .ok node2 i nid2 => .ok node2 [i] false count2 nid2
          | .oom nid2 => .oom node count2 nid2
          | .ub => .ub


/-! ### findNode -/

/-- Result of the descent loop of `findNode`: an entry with an equal key
was found, or the search failed, or the loop was left with a non-null
`node` (either the `shift >= 32 - 5` break or an empty logical slot
after at least one descent) and a DFS over that node follows. -/
inductive FindRes : Type where
  | found (p : List Nat) : FindRes
  | notFound : FindRes
  | dfs (p : List Nat) : FindRes
  | ub : FindRes

/-- The while loop of `findNode`: descend one 5-bit slice of the hash
per iteration while the logical position is taken.  `isRoot` tracks
whether the `node` local variable is still null (no descent yet). -/
def findDescend (key hash : Nat) : Nat → Node → List Nat → Nat → Bool → FindRes
  | 0, _, _, _, _ => .ub
  | fuel + 1, node, path, shift, isRoot =>
    match node with
    | .entry _ _ => .ub
    | .trie _ bm _ _ base =>
      let t := (hash >>> shift) &&& 0x1f
      if logicalPositionTaken bm t then
        let i := physicalIndex bm t
        match base[i]? with
        | none => .ub
        | some child =>
          match child with
          | .entry _ none => .ub
          | .entry _ (some kv) =>
              if kv.1 = key then .found (path ++ [i]) else .notFound
          | .trie _ _ _ _ _ =>
              if 32 - 5 ≤ shift then .dfs (path ++ [i])
              else findDescend key hash fuel child (path ++ [i]) (shift + 5) false
      else
        if isRoot then .notFound else .dfs path

/-- The depth-first search of `findNode` over a hash-collided subtree:
an explicit stack of trie nodes; the children of each popped trie are
scanned in ascending physical order, pushing sub-tries and comparing
entry keys.  Returns the path of the found node (`some (some p)`), a
miss (`some none`), or UB (`none`). -/
def dfsFind (key : Nat) : Nat → List (List Nat × Node) → Option (Option (List Nat))
  | 0, _ => none
  | _ + 1, [] => some none
  | fuel + 1, (p, n) :: rest =>
    match n with
    | .entry _ _ => none
    | .trie _ bm _ _ base =>
      match scanChildren key base (List.range (popcount32 bm)) with
      | .found i => some (some (p ++ [i]))
      | .done ts _ =>
          dfsFind key fuel
            (((ts.map fun i => (p ++ [i], base.getD i (.entry .null none))).reverse) ++ rest)
      | .ub => none

/-! ### The map -/

/-- The map state: `_count`, the root node (always a trie with a null
parent) and the allocation counter that produces fresh array ids. -/
structure Hamt where
  count : Nat
  root : Node
  nextId : Nat

/-- Embedding of `HashArrayMappedTrie::findNode` (on the root node; the
map wrapper is below).  Returns `some (some p)` for a found node (a
non-null `Node*`), `some none` for null, `none` for UB. -/
def findNodeRoot (hasher : Nat → Nat) (key : Nat) (root : Node) :
    Option (Option (List Nat)) :=
  let hash := hash32 hasher key
  match findDescend key hash 8 root [] 0 true with
  | .found p => some (some p)
  | .notFound => some none
  | .ub => none
  | .dfs p =>
    match root.getPath p with
    | none => none
    | some n => dfsFind key (Node.weight root + 1) [(p, n)]

def Hamt.findNode (hasher : Nat → Nat) (m : Hamt) (key : Nat) :
    Option (Option (List Nat)) :=
  findNodeRoot hasher key m.root

/-- The value stored for `key` (contents of `findNode`, as read through
`node->asEntry().second` by `findValue`/iterators). -/
def Hamt.findValue (hasher : Nat → Nat) (m : Hamt) (key : Nat) :
    Option (Option Nat) :=
  match m.findNode hasher key with
  | none => none
  | some none => some none
  | some (some p) =>
    match m.root.getPath p with
    | some (.entry _ (some kv)) => some (some kv.2)
    | _ => none

/-- `HashArrayMappedTrie::count(key)`. -/
def Hamt.countKey (hasher : Nat → Nat) (m : Hamt) (key : Nat) : Option Nat :=
  match m.findNode hasher key with
  | none => none
  | some none => some 0
  | some (some _) => some 1

/-- Embedding of the constructor
`HashArrayMappedTrie(n, hf, eql, a)`: `_count = 0`, seed fixed, and the
root trie allocated with `hamt_trie_allocation_size(1, n > 0 ? n : 1, 0)`
slots.  Array ids start at 1; `none` models an allocation failure in the
constructor. -/
def Hamt.new (allocOk : Nat → Bool) (n : Nat) : Option Hamt :=
  match Node.mkTrie allocOk Addr.null
      (hamt_trie_allocation_size 1 (if 0 < n then n else 1) 0) 1 with
  | some (root, nid) => some ⟨0, root, nid⟩
  | none => none

/-- Top-level `insertEntry(key, exists)`:
`insertEntry(&_root, key, hash32(key), 0, 0, exists)`. -/
def Hamt.insertEntryTop (hasher : Nat → Nat) (allocOk : Nat → Bool)
    (m : Hamt) (key : Nat) : InsRes :=
  insGo hasher allocOk 9 m.root Addr.root key (hash32 hasher key) 0 0 m.count m.nextId

/-- Embedding of `insert(const value_type&)`: on a fresh slot the entry
is placement-constructed; on an existing key nothing is written.  The
returned iterator is `none` (= end) on allocation failure, otherwise it
designates the entry node.  The outer `none` models UB. -/
def Hamt.insert (hasher : Nat → Nat) (allocOk : Nat → Bool) (m : Hamt)
    (kv : Nat × Nat) : Option (Hamt × Option (List Nat)) :=
  match m.insertEntryTop hasher allocOk kv.1 with
  | .ub => none
  | .oom root c nid => some (⟨c, root, nid⟩, none)
  | .ok root p ex c nid =>
    if ex then some (⟨c, root, nid⟩, some p)
    else
      match root.writeEntry p kv with
      | some root2 => some (⟨c, root2, nid⟩, some p)
      | none => none

/-- Embedding of `put(const value_type&)`: overwrites the mapped value
when the key exists (returning true), placement-constructs the entry
otherwise (returning false); returns false on a null node (after a
failed debug assert). -/
def Hamt.put (hasher : Nat → Nat) (allocOk : Nat → Bool) (m : Hamt)
    (kv : Nat × Nat) : Option (Hamt × Bool) :=
  match m.insertEntryTop hasher allocOk kv.1 with
  | .ub => none
  | .oom root c nid => some (⟨c, root, nid⟩, false)
  | .ok root p ex c nid =>
    if ex then
      match root.writeValue p kv.2 with
      | some root2 => some (⟨c, root2, nid⟩, true)
      | none => none
    else
      match root.writeEntry p kv with
      | some root2 => some (⟨c, root2, nid⟩, false)
      | none => none

/-- Embedding of `hamt[key] = v`: `operator[]` default-constructs the
mapped value for an absent key (and asserts a non-null node: a null is
dereferenced, i.e. UB), then the reference is assigned `v`. -/
def Hamt.bracketPut (hasher : Nat → Nat) (allocOk : Nat → Bool) (m : Hamt)
    (kv : Nat × Nat) : Option Hamt :=
  match m.insertEntryTop hasher allocOk kv.1 with
  | .ub => none
  | .oom _ _ _ => none
  | .ok root p ex c nid =>
    if ex then
      match root.writeValue p kv.2 with
      | some root2 => some ⟨c, root2, nid⟩
      | none => none
    else
      match root.writeEntry p kv with
      | some root2 => some ⟨c, root2, nid⟩
      | none => none

/-! ### Sequences of public operations -/

inductive Op : Type where
  | ins (key value : Nat) : Op
  | put (key value : Nat) : Op
  | bra (key value : Nat) : Op

def Op.key : Op → Nat
  | .ins k _ => k
  | .put k _ => k
  | .bra k _ => k

def Op.value : Op → Nat
  | .ins _ v => v
  | .put _ v => v
  | .bra _ v => v

def Hamt.applyOp (hasher : Nat → Nat) (allocOk : Nat → Bool) (m : Hamt) :
    Op → Option Hamt
  | .ins k v => (m.insert hasher allocOk (k, v)).map Prod.fst
  | .put k v => (m.put hasher allocOk (k, v)).map Prod.fst
  | .bra k v => m.bracketPut hasher allocOk (k, v)

def Hamt.applyOps (hasher : Nat → Nat) (allocOk : Nat → Bool) :
    Option Hamt → List Op → Option Hamt
  | om, [] => om
  | om, op :: ops =>
    match om with
    | none => none
    | some m => Hamt.applyOps hasher allocOk (m.applyOp hasher allocOk op) ops

/-- Construct a map with expected size `n` and run a list of public
operations on it (with a never-failing allocator unless stated). -/
def runOps (hasher : Nat → Nat) (allocOk : Nat → Bool) (n : Nat) (ops : List Op) :
    Option Hamt :=
  Hamt.applyOps hasher allocOk (Hamt.new allocOk n) ops


/-! ### Pointer dereference and iterators

The forward iterator stores a raw `Node*`.  Addresses are resolved
against the current tree: `Addr.slot a i` designates slot `i` of the
live array with id `a`; if no such array exists any more (it was
deallocated during a reallocation) or the slot is out of range, the
dereference is UB.  Dereferencing null is UB. -/

mutual
def findArray : Node → Nat → Option (List Node)
  | .entry _ _, _ => none
  | .trie _ _ _ aid base, a =>
    if aid = a ∧ aid ≠ 0 then some base else findArrayList base a

def findArrayList : List Node → Nat → Option (List Node)
  | [], _ => none
  | n :: ns, a =>
    match findArray n a with
    | some b => some b
    | none => findArrayList ns a
end

def derefNode (root : Node) : Addr → Option Node
  | .null => none
  | .root => some root
  | .slot a i => (findArray root a).bind fun b => b[i]?

/-- `BitmapTrie::firstEntryNodeRecursively`: descend through physical
slot 0 until an entry node is reached; returns its address.  `n` is the
trie (held by the node at address `selfAddr`); `assert(size > 0)` and a
missing slot are UB. -/
def firstEntryNodeRecursively : Nat → Node → Option Addr
  | 0, _ => none
  | fuel + 1, n =>
    match n with
    | .entry _ _ => none
    | .trie _ bm _ aid base =>
      if popcount32 bm = 0 then none
      else
        match base[0]? with
        | none => none
        | some child =>
          if child.isEntry then some (.slot aid 0)
          else firstEntryNodeRecursively fuel child

/-- Embedding of `Node::nextEntryNode` (the iterator advancement).
`nodeAddr` is the address of the current node, `pAddr` the pointer read
from its `_parent` field.  Each round asserts a non-null parent that is
a trie, computes `physicalIndexOf(node)` by pointer arithmetic (UB if
the node does not lie in the parent trie array), and either moves to
the next sibling (descending to its first entry if it is a trie) or
ascends. -/
def nextEntryNodeGo (root : Node) : Nat → Addr → Addr → Option (Option Addr)
  | 0, _, _ => none
  | fuel + 1, nodeAddr, pAddr =>
    if pAddr = .null then none
    else
      match derefNode root pAddr with
      | none => none
      | some pnode =>
        match pnode with
        | .entry _ _ => none
        | .trie _ bm _ aid base =>
          match nodeAddr with
          | .slot aid2 j =>
            if aid2 = aid then
              let idx := j + 1
              if idx < popcount32 bm then
                match base[idx]? with
                | none => none
                | some nxt =>
                  if nxt.isEntry then some (some (.slot aid idx))
                  else
                    match firstEntryNodeRecursively fuel nxt with
                    | some a => some (some a)
                    | none => none
              else
                if pnode.parent = .null then some none
                else nextEntryNodeGo root fuel pAddr pnode.parent
            else none
          | _ => none

def nextEntryNode (root : Node) (nodeAddr : Addr) (fuel : Nat) :
    Option (Option Addr) :=
  match derefNode root nodeAddr with
  | none => none
  | some n =>
    match n with
    | .trie _ _ _ _ _ => none
    | .entry pa _ => nextEntryNodeGo root fuel nodeAddr pa

/-- `begin()`: null iterator when `_count == 0`, otherwise the address
of the first entry (wrapped in an extra Option for UB). -/
def Hamt.begin (m : Hamt) : Option (Option Addr) :=
  if m.count = 0 then some none
  else
    match firstEntryNodeRecursively (Node.weight m.root + 1) m.root with
    | some a => some (some a)
    | none => none

/-- Iterating from `begin()` to `end()` by repeated `operator++`,
reading `it->first`/`it->second` through the iterator at each stop.
Returns the list of visited entries, or `none` if the traversal or a
dereference is UB. -/
def iterFrom (root : Node) : Nat → Option Addr → Option (List (Nat × Nat))
  | 0, _ => none
  | _ + 1, none => some []
  | fuel + 1, some a =>
    match derefNode root a with
    | some (.entry _ (some kv)) =>
      match nextEntryNode root a (fuel + 1) with
      | none => none
      | some nxt =>
        match iterFrom root fuel nxt with
        | some l => some (kv :: l)
        | none => none
    | _ => none

def Hamt.iterEntries (m : Hamt) (fuel : Nat) : Option (List (Nat × Nat)) :=
  match m.begin with
  | none => none
  | some it => iterFrom m.root fuel it

/-- The address held by the iterator `find(key)` returns. -/
def Hamt.findIter (hasher : Nat → Nat) (m : Hamt) (key : Nat) :
    Option (Option Addr) :=
  match m.findNode hasher key with
  | none => none
  | some none => some none
  | some (some p) =>
    match m.root.addrAtIn Addr.root p with
    | some a => some (some a)
    | none => none

/-- Embedding of `equal_range(key)`: `first = find(key)`,
`second = first; second++`.  The increment calls
`_node->nextEntryNode()` on the iterator node pointer, even when it is
null. -/
def Hamt.equalRange (hasher : Nat → Nat) (m : Hamt) (key : Nat)
    (fuel : Nat) : Option (Option Addr × Option Addr) :=
  match m.findIter hasher key with
  | none => none
  | some first =>
    match first with
    | none => none
    | some a =>
      match nextEntryNode m.root a fuel with
      | none => none
      | some second => some (some a, second)

/-! ### The parent-pointer integrity check

For every trie node, each node stored in its array must hold a parent
pointer equal to the address of that trie node. -/

mutual
def parentsOk : Node → Addr → Bool
  | .entry _ _, _ => true
  | .trie _ _ _ aid base, selfA => parentsOkList base aid selfA 0

def parentsOkList : List Node → Nat → Addr → Nat → Bool
  | [], _, _, _ => true
  | c :: cs, aid, selfA, i =>
    (c.parent = selfA : Bool) && parentsOk c (.slot aid i) &&
      parentsOkList cs aid selfA (i + 1)
end


/-! ### C10: a freshly constructed map is empty -/

lemma findDescend_empty_root (key hash fuel : Nat) (pa : Addr) (cap aid : Nat) :
    findDescend key hash (fuel + 1) (.trie pa 0 cap aid []) [] 0 true = .notFound := by
  simp [findDescend, logicalPositionTaken]

lemma findDescend_empty_root8 (key hash : Nat) (pa : Addr) (cap aid : Nat) :
    findDescend key hash 8 (.trie pa 0 cap aid []) [] 0 true = .notFound :=
  findDescend_empty_root key hash 7 pa cap aid

lemma findNodeRoot_emptyRoot (hasher : Nat → Nat) (key cap aid : Nat) :
    findNodeRoot hasher key (.trie .null 0 cap aid []) = some none := by
  rw [findNodeRoot.eq_def]
  dsimp only
  rw [findDescend_empty_root8]

lemma Hamt.findNode_emptyRoot (hasher : Nat → Nat) (key cap aid nid : Nat) :
    Hamt.findNode hasher ⟨0, .trie .null 0 cap aid [], nid⟩ key = some none :=
  findNodeRoot_emptyRoot hasher key cap aid

lemma countKey_of_findNode_none (hasher : Nat → Nat) (m : Hamt) (key : Nat)
    (h : m.findNode hasher key = some none) : m.countKey hasher key = some 0 := by
  unfold Hamt.countKey
  rw [h]

/-- C10: a newly constructed map (for any expected-size argument n,
including the default) has `size() = 0`, `begin() = end()` (the null
iterator) and `find(key)` misses for every key: `findNode` returns the
null node without UB, descending into no slot. -/
theorem new_map_is_empty (n key : Nat) (hasher : Nat → Nat) :
    ∃ m, Hamt.new (fun _ => true) n = some m ∧ m.count = 0 ∧ m.begin = some none ∧
      m.findNode hasher key = some none ∧ m.countKey hasher key = some 0 := by
  have h1 : 1 ≤ hamt_trie_allocation_size 1 (if 0 < n then n else 1) 0 :=
    (hamt_trie_allocation_size_in_range 1 _ 0 (by omega) (by omega) (by split <;> omega)).1
  have h0 : ¬ (hamt_trie_allocation_size 1 (if 0 < n then n else 1) 0 = 0) := by omega
  have hmk : Node.mkTrie (fun _ => true) Addr.null
      (hamt_trie_allocation_size 1 (if 0 < n then n else 1) 0) 1 =
      some (.trie .null 0 (hamt_trie_allocation_size 1 (if 0 < n then n else 1) 0) 1 [], 2) := by
    unfold Node.mkTrie
    rw [if_neg h0]
    rfl
  have hnew : Hamt.new (fun _ => true) n =
      some ⟨0, .trie .null 0 (hamt_trie_allocation_size 1 (if 0 < n then n else 1) 0) 1 [], 2⟩ := by
    unfold Hamt.new
    rw [hmk]
  refine ⟨_, hnew, rfl, rfl, Hamt.findNode_emptyRoot hasher key _ 1 2, ?_⟩
  exact countKey_of_findNode_none hasher _ key (Hamt.findNode_emptyRoot hasher key _ 1 2)

/-- Witness for C10 at `n = 0`, `key = 7`, the zero hash function. -/
theorem new_map_is_empty_witness :
    ∃ m, Hamt.new (fun _ => true) 0 = some m ∧ m.count = 0 ∧ m.begin = some none ∧
      m.findNode (fun _ => 0) 7 = some none ∧ m.countKey (fun _ => 0) 7 = some 0 :=
  new_map_is_empty 0 7 (fun _ => 0)

/-! ### Counterexample state for the parent-pointer claims

Three keys with user-hash values chosen so that `hash32` yields 5, 37
and 3: keys 0 and 1 share the level-0 slice (5) and differ at level 1
(slices 0 and 1), so inserting key 1 branches key 0 off into a fresh
sub-trie `T` stored at the root array physical slot 0; key 2 has
level-0 slice 3 < 5, so inserting it shifts `T` from physical slot 0 to
physical slot 1 of the root array (`BitmapTrie::insertEntry`, in-place
branch).  The entries inside `T` keep their `_parent` pointer to the old
slot (`operator=(Node&&)` copies `_parent` from the source and nothing
re-points the children of a moved trie), which now holds the entry of
key 2. -/

def cexHasher : Nat → Nat := fun k =>
  [18446744072608906396, 18446744072608906428, 18446744072608906402].getD k 0

def cexOps : List Op := [.ins 0 100, .ins 1 101, .ins 2 102]

def cexMap : Option Hamt := runOps cexHasher (fun _ => true) 1 cexOps

/-- C3: the parent-pointer integrity invariant fails on a reachable
state.  After the three insertions above (hash32 values 5, 37, 3), the
checker `parentsOk` rejects the tree: the entry of key 0 lives at slot 0
of array 2 (the array of the moved sub-trie, itself held at
`Addr.slot 1 1`), but its stored parent pointer is `Addr.slot 1 0`,
which now holds the entry of key 2 — not the trie node containing it.
The state is live: all three keys are still found by `findNode`. -/
theorem parent_pointer_integrity_violated :
    (hash32 cexHasher 0, hash32 cexHasher 1, hash32 cexHasher 2) = (5, 37, 3) ∧
    (cexMap.map fun m => parentsOk m.root Addr.root) = some false ∧
    (cexMap.map fun m => derefNode m.root (Addr.slot 2 0)) =
      some (some (.entry (.slot 1 0) (some (0, 100)))) ∧
    (cexMap.map fun m => derefNode m.root (Addr.slot 1 0)) =
      some (some (.entry .root (some (2, 102)))) ∧
    (cexMap.map Hamt.count) = some 3 ∧
    (cexMap.map fun m => (m.findValue cexHasher 0, m.findValue cexHasher 1,
        m.findValue cexHasher 2)) =
      some (some (some 100), some (some 101), some (some 102)) :=
  ⟨rfl, rfl, rfl, rfl, rfl, rfl⟩

/-- C5: iteration does not visit exactly `size()` entries on this
reachable 3-entry map.  `begin()` yields the entry of key 2, the first
increment yields the entry of key 0 (inside the moved sub-trie), and the
next increment dereferences that entry's stale parent pointer
(`Addr.slot 1 0`, which now holds an entry, not a trie), so the walk
hits UB (`nextEntryNode` asserts `parent_node->isTrie()`), returning
`none` for any fuel instead of a 3-entry list, although `find()`
locates all three keys. -/
theorem iteration_incomplete_on_shifted_trie :
    (cexMap.map Hamt.count) = some 3 ∧
    (cexMap.map Hamt.begin) = some (some (some (.slot 1 0))) ∧
    (cexMap.map fun m => nextEntryNode m.root (Addr.slot 1 0) 50) =
      some (some (some (.slot 2 0))) ∧
    (cexMap.map fun m => nextEntryNode m.root (Addr.slot 2 0) 50) = some none ∧
    (cexMap.map fun m => m.iterEntries 100) = some none ∧
    (cexMap.map fun m => (m.findValue cexHasher 0, m.findValue cexHasher 1,
        m.findValue cexHasher 2)) =
      some (some (some 100), some (some 101), some (some 102)) :=
  ⟨rfl, rfl, rfl, rfl, rfl, rfl⟩

/-- C9: `equal_range` on an absent key is UB.  `find` returns the end
iterator (a null `Node*`); `equal_range` then executes `second++`, i.e.
`HAMTConstForwardIterator::operator++`, which calls
`_node->nextEntryNode()` through the null pointer.  On the empty map the
count is 0 and `find` misses, yet `equalRange` is UB (`none`) instead of
an empty range. -/
theorem equal_range_absent_key_ub :
    ∃ m, Hamt.new (fun _ => true) 1 = some m ∧
      m.countKey (fun _ => 0) 5 = some 0 ∧
      m.findIter (fun _ => 0) 5 = some none ∧
      m.equalRange (fun _ => 0) 5 20 = none :=
  ⟨⟨0, .trie .null 0 2 1 [], 2⟩, rfl, rfl, rfl, rfl⟩


/-! ### Bitmap arithmetic toolbox -/

/-- The ascending list of logical indices below `N` whose bit is set in
`bm`.  `occList bm = occListN 32 bm` enumerates the occupied logical
slots of a BitmapTrie in ascending order. -/
def occListN (N bm : Nat) : List Nat := (List.range N).filter (fun j => bm.testBit j)

def occList (bm : Nat) : List Nat := occListN 32 bm

lemma occListN_succ (N bm : Nat) :
    occListN (N + 1) bm = occListN N bm ++ (if bm.testBit N then [N] else []) := by
  unfold occListN
  rw [List.range_succ, List.filter_append]
  split <;> simp_all

lemma occListN_congr {N bm bm2 : Nat} (h : ∀ j, j < N → bm.testBit j = bm2.testBit j) :
    occListN N bm = occListN N bm2 := by
  unfold occListN
  refine List.filter_congr ?_
  intro a ha
  exact h a (List.mem_range.mp ha)

lemma occListN_mono_length {M N bm : Nat} (h : M ≤ N) :
    (occListN M bm).length ≤ (occListN N bm).length := by
  induction N with
  | zero => interval_cases M
            exact le_rfl
  | succ n ih =>
    rcases Nat.lt_or_ge M (n + 1) with hlt | hge
    · calc (occListN M bm).length ≤ (occListN n bm).length := ih (by omega)
        _ ≤ (occListN (n + 1) bm).length := by
            rw [occListN_succ]
            simp only [List.length_append]
            omega
    · have : M = n + 1 := by omega
      subst this
      exact le_rfl

lemma mem_occListN {N bm t : Nat} : t ∈ occListN N bm ↔ t < N ∧ bm.testBit t = true := by
  simp [occListN, List.mem_filter, List.mem_range]

lemma occListN_nodup (N bm : Nat) : (occListN N bm).Nodup :=
  (List.nodup_range N).filter _

lemma occListN_sorted (N bm : Nat) : (occListN N bm).Pairwise (· < ·) :=
  (List.pairwise_lt_range N).filter _

lemma testBit_and_mask (bm l j : Nat) :
    (bm &&& (2 ^ l - 1)).testBit j = (bm.testBit j && decide (j < l)) := by
  simp [Nat.testBit_and, Nat.testBit_two_pow_sub_one, Bool.and_comm]

lemma testBit_or_pow {bm l j : Nat} (h : j ≠ l) :
    (bm ||| 2 ^ l).testBit j = bm.testBit j := by
  simp [Nat.testBit_or, Nat.testBit_two_pow, (Ne.symm h)]

lemma testBit_or_pow_self (bm l : Nat) : (bm ||| 2 ^ l).testBit l = true := by
  simp [Nat.testBit_or, Nat.testBit_two_pow]

lemma popcount32_eq_length_occList (bm : Nat) : popcount32 bm = (occList bm).length := by
  unfold popcount32 occList occListN
  exact List.countP_eq_length_filter _ _

lemma occListN_masked {l N : Nat} (bm : Nat) (h : l ≤ N) :
    occListN N (bm &&& (2 ^ l - 1)) = occListN l bm := by
  induction N with
  | zero => interval_cases l
            rfl
  | succ n ih =>
    rcases Nat.lt_or_ge l (n + 1) with hlt | hge
    · have hn : l ≤ n := by omega
      rw [occListN_succ, ih hn]
      have hbit : (bm &&& (2 ^ l - 1)).testBit n = false := by
        rw [testBit_and_mask]
        simp only [Bool.and_eq_false_imp, decide_eq_true_eq]
        simp
        omega
      rw [hbit]
      simp
    · have : l = n + 1 := by omega
      subst this
      exact occListN_congr fun j hj => by
        rw [testBit_and_mask]
        simp
        omega

lemma physicalIndex_eq_length {bm l : Nat} (h : l ≤ 32) :
    physicalIndex bm l = (occListN l bm).length := by
  unfold physicalIndex
  rw [popcount32_eq_length_occList]
  unfold occList
  rw [occListN_masked bm h]

lemma insertIdx_append_left {α : Type} {A : List α} {i : Nat} (B : List α) (x : α)
    (h : i ≤ A.length) : (A ++ B).insertIdx i x = A.insertIdx i x ++ B := by
  induction A generalizing i with
  | nil =>
    have : i = 0 := by simpa using h
    subst this
    simp
  | cons a as ih =>
    cases i with
    | zero => simp [List.insertIdx_zero]
    | succ j =>
      simp only [List.cons_append, List.insertIdx_succ_cons]
      rw [ih]
      simp at h
      omega

/-- Central insertion lemma: setting a fresh bit `l` inserts `l` into
the ascending occupied-slot list at position `physicalIndex bm l`. -/
lemma occListN_or_pow {bm l N : Nat} (hfree : bm.testBit l = false) (hlN : l < N) :
    occListN N (bm ||| 2 ^ l) = (occListN N bm).insertIdx (occListN l bm).length l := by
  induction N with
  | zero => omega
  | succ n ih =>
    rcases Nat.lt_or_ge l n with hlt | hge
    · rw [occListN_succ, occListN_succ, ih hlt, testBit_or_pow (by omega : n ≠ l)]
      rw [insertIdx_append_left _ _ (occListN_mono_length (by omega : l ≤ n))]
    · have : l = n := by omega
      subst this
      rw [occListN_succ, occListN_succ, testBit_or_pow_self, hfree]
      have hlow : occListN l (bm ||| 2 ^ l) = occListN l bm :=
        occListN_congr fun j hj => testBit_or_pow (by omega)
      rw [hlow]
      simp [List.insertIdx_length_self]

lemma occList_or_pow {bm l : Nat} (hfree : bm.testBit l = false) (hl : l < 32) :
    occList (bm ||| 2 ^ l) = (occList bm).insertIdx (physicalIndex bm l) l := by
  unfold occList
  rw [occListN_or_pow hfree hl, physicalIndex_eq_length (by omega)]

lemma physicalIndex_le_popcount32 {bm l : Nat} (h : l ≤ 32) :
    physicalIndex bm l ≤ popcount32 bm := by
  rw [physicalIndex_eq_length h, popcount32_eq_length_occList]
  exact occListN_mono_length h

lemma popcount32_or_pow {bm l : Nat} (hfree : bm.testBit l = false) (hl : l < 32) :
    popcount32 (bm ||| 2 ^ l) = popcount32 bm + 1 := by
  rw [popcount32_eq_length_occList, popcount32_eq_length_occList]
  unfold occList
  rw [occListN_or_pow hfree hl]
  rw [List.length_insertIdx _ _ (occListN_mono_length (by omega))]

lemma occListN_decompose {M N bm : Nat} (h : M ≤ N) :
    ∃ H, occListN N bm = occListN M bm ++ H := by
  induction N with
  | zero => exact ⟨[], by interval_cases M
                          simp⟩
  | succ n ih =>
    rcases Nat.lt_or_ge M (n + 1) with hlt | hge
    · obtain ⟨H, hH⟩ := ih (by omega)
      exact ⟨H ++ (if bm.testBit n then [n] else []), by
        rw [occListN_succ, hH, List.append_assoc]⟩
    · have : M = n + 1 := by omega
      subst this
      exact ⟨[], by simp⟩

/-- The physical slot `physicalIndex bm t` of an occupied logical index
`t` holds exactly `t` in the ascending occupied-slot list. -/
lemma occList_getElem_physicalIndex {bm t : Nat} (hset : bm.testBit t = true)
    (ht : t < 32) :
    (occList bm)[physicalIndex bm t]? = some t ∧ physicalIndex bm t < popcount32 bm := by
  obtain ⟨H, hH⟩ := @occListN_decompose (t + 1) 32 bm (by omega)
  have hsucc : occListN (t + 1) bm = occListN t bm ++ [t] := by
    rw [occListN_succ, hset]
    simp
  rw [hsucc] at hH
  have hlist : occList bm = occListN t bm ++ ([t] ++ H) := by
    unfold occList
    rw [hH, List.append_assoc]
  have hidx : physicalIndex bm t = (occListN t bm).length := physicalIndex_eq_length (by omega)
  constructor
  · rw [hlist, hidx, List.getElem?_append_right (le_refl _)]
    simp
  · rw [popcount32_eq_length_occList, hlist, hidx]
    simp

/-! ### C6: BitmapTrie bitmap/physical-slot consistency -/

lemma set_insertIdx_self {α : Type} {xs : List α} {i : Nat} (x y : α)
    (h : i ≤ xs.length) : (xs.insertIdx i x).set i y = xs.insertIdx i y := by
  induction xs generalizing i with
  | nil =>
    have : i = 0 := by simpa using h
    subst this
    simp
  | cons a as ih =>
    cases i with
    | zero => simp
    | succ j =>
      simp only [List.insertIdx_succ_cons, List.set_cons_succ]
      rw [ih]
      simp at h
      omega

lemma map_insertIdx {α β : Type} (f : α → β) {xs : List α} {i : Nat} (x : α)
    (h : i ≤ xs.length) :
    (xs.insertIdx i x).map f = (xs.map f).insertIdx i (f x) := by
  induction xs generalizing i with
  | nil =>
    have : i = 0 := by simpa using h
    subst this
    simp
  | cons a as ih =>
    cases i with
    | zero => simp
    | succ j =>
      simp only [List.insertIdx_succ_cons, List.map_cons]
      rw [ih]
      simp at h
      omega

lemma getElemQ_insertIdx_self {α : Type} {xs : List α} {i : Nat} (x : α)
    (h : i ≤ xs.length) : (xs.insertIdx i x)[i]? = some x := by
  have hlen : i < (xs.insertIdx i x).length := by
    rw [List.length_insertIdx _ _ h]
    omega
  rw [List.getElem?_eq_getElem hlen, List.getElem_insertIdx_self _ _ _ h]

lemma getPath_nil (n : Node) : n.getPath [] = some n := by
  cases n <;> rfl

lemma getPath_singleton (pa : Addr) (bm cap aid : Nat) (base : List Node) (i : Nat) :
    (Node.trie pa bm cap aid base).getPath [i] = base[i]? := by
  simp only [Node.getPath]
  cases base[i]? <;> rfl

lemma setPath_singleton {base : List Node} {i : Nat} {c : Node}
    (h : base[i]? = some c) (pa : Addr) (bm cap aid : Nat) (m : Node) :
    (Node.trie pa bm cap aid base).setPath [i] m =
      some (.trie pa bm cap aid (base.set i m)) := by
  simp only [Node.setPath]
  rw [h]

lemma writeEntry_singleton {base : List Node} {i : Nat} {epa : Addr}
    {c0 : Option (Nat × Nat)} (h : base[i]? = some (.entry epa c0))
    (pa : Addr) (bm cap aid : Nat) (kv : Nat × Nat) :
    (Node.trie pa bm cap aid base).writeEntry [i] kv =
      some (.trie pa bm cap aid (base.set i (.entry epa (some kv)))) := by
  unfold Node.writeEntry
  rw [getPath_singleton, h]
  exact setPath_singleton h pa bm cap aid _

/-- A marker entry node used to identify which logical index a physical
slot belongs to. -/
def markNode (l : Nat) : Node := .entry Addr.root (some (l, l))

/-- One `BitmapTrie::insertEntry` call at logical index `l` on a
standalone trie node, followed by placement-constructing the marker
entry `(l, l)` into the returned slot (as every caller does). -/
def btInsertMark (allocOk : Nat → Bool) (e lvl : Nat) :
    Option (Node × Nat) → Nat → Option (Node × Nat)
  | none, _ => none
  | some (node, nid), l =>
    match BitmapTrie.insertEntry allocOk node l Addr.root e lvl nid with
    | .ok node2 i nid2 =>
      match node2.writeEntry [i] (l, l) with
      | some node3 => some (node3, nid2)
      | none => none
    | .oom _ => none
    | .ub => none

/-- A sequence of `BitmapTrie::insertEntry` calls on a trie that starts
as `allocate(cap)` left it: zero bitmap, empty slot array. -/
def btRunMarks (allocOk : Nat → Bool) (e lvl cap aid nid : Nat) (ls : List Nat) :
    Option (Node × Nat) :=
  ls.foldl (btInsertMark allocOk e lvl) (some (.trie .null 0 cap aid [], nid))

lemma insertEntry_ok_inplace {allocOk : Nat → Bool} {pa parent : Addr}
    {bm cap aid l e lvl nid : Nat} (bs : List Node)
    (h1 : l < 32) (h2 : bm.testBit l = false) (hc : popcount32 bm + 1 ≤ cap) :
    BitmapTrie.insertEntry allocOk (.trie pa bm cap aid bs) l parent e lvl nid =
      .ok (.trie pa (bm ||| 2 ^ l) cap aid
        (bs.insertIdx (physicalIndex bm l) (.entry parent none))) (physicalIndex bm l) nid := by
  unfold BitmapTrie.insertEntry
  dsimp only
  rw [if_neg (by simp [h2]; omega), if_pos hc]

lemma insertEntry_ok_realloc {allocOk : Nat → Bool} {pa parent : Addr}
    {bm cap aid l e lvl nid : Nat} (bs : List Node)
    (h1 : l < 32) (h2 : bm.testBit l = false) (hc : ¬ popcount32 bm + 1 ≤ cap)
    (hok : allocOk nid = true) :
    BitmapTrie.insertEntry allocOk (.trie pa bm cap aid bs) l parent e lvl nid =
      .ok (.trie pa (bm ||| 2 ^ l)
        (hamt_trie_allocation_size (popcount32 bm + 1) e lvl) nid
        (bs.insertIdx (physicalIndex bm l) (.entry parent none))) (physicalIndex bm l)
        (nid + 1) := by
  unfold BitmapTrie.insertEntry
  dsimp only
  rw [if_neg (by simp [h2]; omega), if_neg hc, if_pos hok]

lemma insertEntry_oom {allocOk : Nat → Bool} {pa parent : Addr}
    {bm cap aid l e lvl nid : Nat} (bs : List Node)
    (h1 : l < 32) (h2 : bm.testBit l = false) (hc : ¬ popcount32 bm + 1 ≤ cap)
    (hok : allocOk nid = false) :
    BitmapTrie.insertEntry allocOk (.trie pa bm cap aid bs) l parent e lvl nid =
      .oom (nid + 1) := by
  unfold BitmapTrie.insertEntry
  dsimp only
  rw [if_neg (by simp [h2]; omega), if_neg hc, if_neg (by simp [hok])]

lemma btInsertMark_step (e lvl : Nat) {bm cap aid nid l : Nat}
    (hfree : bm.testBit l = false) (hl : l < 32) :
    ∃ cap2 aid2 nid2,
      btInsertMark (fun _ => true) e lvl
        (some (.trie Addr.null bm cap aid ((occList bm).map markNode), nid)) l =
      some (.trie Addr.null (bm ||| 2 ^ l) cap2 aid2
        ((occList (bm ||| 2 ^ l)).map markNode), nid2) := by
  have hle2 : physicalIndex bm l ≤ (occList bm).length := by
    rw [← popcount32_eq_length_occList]
    exact physicalIndex_le_popcount32 (by omega)
  have hle : physicalIndex bm l ≤ ((occList bm).map markNode).length := by
    rw [List.length_map]
    exact hle2
  have hget := @getElemQ_insertIdx_self Node ((occList bm).map markNode)
    (physicalIndex bm l) (.entry Addr.root none) hle
  have hnew : (((occList bm).map markNode).insertIdx (physicalIndex bm l)
        (Node.entry Addr.root none)).set (physicalIndex bm l)
        (.entry Addr.root (some (l, l))) =
      (occList (bm ||| 2 ^ l)).map markNode := by
    rw [set_insertIdx_self _ _ hle]
    rw [show Node.entry Addr.root (some (l, l)) = markNode l from rfl]
    rw [← map_insertIdx markNode l hle2, ← occList_or_pow hfree hl]
  by_cases hc : popcount32 bm + 1 ≤ cap
  · refine ⟨cap, aid, nid, ?_⟩
    unfold btInsertMark
    dsimp only
    rw [insertEntry_ok_inplace _ hl hfree hc]
    dsimp only
    rw [writeEntry_singleton hget Addr.null (bm ||| 2 ^ l) cap aid (l, l)]
    dsimp only
    rw [hnew]
  · refine ⟨hamt_trie_allocation_size (popcount32 bm + 1) e lvl, nid, nid + 1, ?_⟩
    unfold btInsertMark
    dsimp only
    rw [insertEntry_ok_realloc _ hl hfree hc rfl]
    dsimp only
    rw [writeEntry_singleton hget Addr.null (bm ||| 2 ^ l) _ nid (l, l)]
    dsimp only
    rw [hnew]

lemma foldl_or_testBit (ls : List Nat) (bm : Nat) (j : Nat) :
    (ls.foldl (fun b l => b ||| 2 ^ l) bm).testBit j =
      (bm.testBit j || decide (j ∈ ls)) := by
  induction ls generalizing bm with
  | nil => simp
  | cons a as ih =>
    simp only [List.foldl_cons, ih, List.mem_cons]
    by_cases h : j = a
    · subst h
      simp [testBit_or_pow_self]
    · simp [testBit_or_pow h, h]

lemma btRunMarks_go (e lvl : Nat) (ls : List Nat) :
    ∀ bm cap aid nid, ls.Nodup → (∀ l ∈ ls, l < 32 ∧ bm.testBit l = false) →
    ∃ cap2 aid2 nid2,
      ls.foldl (btInsertMark (fun _ => true) e lvl)
        (some (.trie Addr.null bm cap aid ((occList bm).map markNode), nid)) =
      some (.trie Addr.null (ls.foldl (fun b l => b ||| 2 ^ l) bm) cap2 aid2
        ((occList (ls.foldl (fun b l => b ||| 2 ^ l) bm)).map markNode), nid2) := by
  induction ls with
  | nil =>
    intro bm cap aid nid _ _
    exact ⟨cap, aid, nid, rfl⟩
  | cons a as ih =>
    intro bm cap aid nid hnd hall
    obtain ⟨ha32, hafree⟩ := hall a (by simp)
    obtain ⟨cap2, aid2, nid2, hstep⟩ := @btInsertMark_step e lvl bm cap aid nid a hafree ha32
    simp only [List.foldl_cons]
    rw [hstep]
    refine ih (bm ||| 2 ^ a) cap2 aid2 nid2 (List.Nodup.of_cons hnd) ?_
    intro l hl
    obtain ⟨h32, hfree2⟩ := hall l (by simp [hl])
    have hne : l ≠ a := by
      intro he
      subst he
      exact (List.nodup_cons.mp hnd).1 hl
    rw [testBit_or_pow hne]
    exact ⟨h32, hfree2⟩

lemma occList_zero : occList 0 = [] := by decide

/-- C6. After any sequence of `BitmapTrie::insertEntry` calls at
pairwise-distinct logical indices in `[0,32)` under a never-failing
allocator, the trie satisfies the bitmap/physical-slot consistency
invariant: the slot array's length equals `popcount(_bitmap)`; a logical
index is occupied (its bitmap bit is set) exactly when it was inserted;
for every occupied logical index `i`, `physicalIndex i` equals
`popcount(_bitmap & ((1 << i) - 1))` and physical slot `physicalIndex i`
holds exactly the node constructed for `i`; and the physical slots are
densely packed in strictly ascending logical-index order (the array is
the image of the sorted occupied-index list, with no gaps). -/
theorem bitmap_physical_slot_consistency (e lvl cap aid nid : Nat) (ls : List Nat)
    (hnd : ls.Nodup) (h32 : ∀ l ∈ ls, l < 32) :
    ∃ cap2 aid2 nid2, ∃ bm base,
      btRunMarks (fun _ => true) e lvl cap aid nid ls =
        some (.trie Addr.null bm cap2 aid2 base, nid2) ∧
      base.length = popcount32 bm ∧
      (∀ i, bm.testBit i = true ↔ i ∈ ls) ∧
      base = (occList bm).map markNode ∧
      (occList bm).Pairwise (· < ·) ∧
      (∀ i ∈ ls, physicalIndex bm i = popcount32 (bm &&& (2 ^ i - 1)) ∧
        physicalIndex bm i < popcount32 bm ∧
        base[physicalIndex bm i]? = some (markNode i)) := by
  obtain ⟨cap2, aid2, nid2, hrun⟩ :=
    btRunMarks_go e lvl ls 0 cap aid nid hnd
      (fun l hl => ⟨h32 l hl, by simp⟩)
  rw [occList_zero] at hrun
  refine ⟨cap2, aid2, nid2, ls.foldl (fun b l => b ||| 2 ^ l) 0,
    (occList (ls.foldl (fun b l => b ||| 2 ^ l) 0)).map markNode, hrun, ?_, ?_, rfl,
    occListN_sorted 32 _, ?_⟩
  · rw [List.length_map, ← popcount32_eq_length_occList]
  · intro i
    rw [foldl_or_testBit]
    simp
  · intro i hi
    have hset : (ls.foldl (fun b l => b ||| 2 ^ l) 0).testBit i = true := by
      rw [foldl_or_testBit]
      simp [hi]
    obtain ⟨hg, hlt⟩ := occList_getElem_physicalIndex hset (h32 i hi)
    refine ⟨rfl, hlt, ?_⟩
    rw [List.getElem?_map, hg]
    rfl

theorem bitmap_physical_slot_consistency_witness :
    ([4, 2, 3, 0, 5, 1, 31] : List Nat).Nodup ∧
      (∀ l ∈ ([4, 2, 3, 0, 5, 1, 31] : List Nat), l < 32) ∧
      (∃ cap2 aid2 nid2, ∃ bm base,
        btRunMarks (fun _ => true) 7 0 1 1 1 [4, 2, 3, 0, 5, 1, 31] =
          some (.trie Addr.null bm cap2 aid2 base, nid2) ∧
        base.length = popcount32 bm ∧
        (∀ i, bm.testBit i = true ↔ i ∈ ([4, 2, 3, 0, 5, 1, 31] : List Nat)) ∧
        base = (occList bm).map markNode ∧
        (occList bm).Pairwise (· < ·) ∧
        (∀ i ∈ ([4, 2, 3, 0, 5, 1, 31] : List Nat),
          physicalIndex bm i = popcount32 (bm &&& (2 ^ i - 1)) ∧
          physicalIndex bm i < popcount32 bm ∧
          base[physicalIndex bm i]? = some (markNode i))) :=
  ⟨by decide, by decide,
    bitmap_physical_slot_consistency 7 0 1 1 1 [4, 2, 3, 0, 5, 1, 31]
      (by decide) (by decide)⟩
end Foc
